import Mathlib

/-!
Verification of the chip8vm interpreter core (`src/chip.rs`, `src/lib.rs`,
`src/specs.rs`) against its natural-language specification.

Modelling conventions:
* Machine integers (`u8`, `u16`, `usize`) are embedded as `Nat`, with explicit
  `% 256` / `% 65536` at the points where the Rust code performs wrapping
  (`overflowing_add`, `overflowing_sub`, wrapping shifts, `as u16` casts).
* Arrays are embedded as `List Nat`; indexing `a[i]` becomes `List.getD l i 0`
  and assignment `a[i] = v` becomes `List.set l i v`.
* The three capability traits (`Random`, `Screen`, `Keypad`) are injected
  dependencies.  `Random::range` and `Keypad::{is_pressed, pressed_key}` take
  `&self` and are modelled as a value / pure functions.  `Screen` takes
  `&mut self`; its only observable interaction with the core during one `tick`
  is the sequence of collision booleans returned by successive `draw` calls,
  so a screen is modelled by that response sequence (`draw k` = collision
  result of the k-th `draw` call of the tick, counting from 0).  Every call the
  core makes on a port is additionally recorded in an explicit trace
  (`List PortCall`), so which operations were invoked, with which arguments
  and in which order, is part of the embedded behaviour.
-/

set_option maxRecDepth 10000
set_option maxHeartbeats 1600000

namespace Chip8

/-! ### Constants from `src/specs.rs` -/

def NUM_RESGISTERS : Nat := 16
def FLAG : Nat := 0xF
def MEM_SIZE : Nat := 4096
def PROG_START : Nat := 0x200
def PROG_END : Nat := 0xE8F
def STACK_SIZE : Nat := 16
def NUM_TIMERS : Nat := 2
def DELAY_TIMER : Nat := 0
def SOUND_TIMER : Nat := 1

/-! ### Constants from `src/lib.rs` -/

def PROGRAM_SIZE : Nat := PROG_END - PROG_START
def SCREEN_WIDTH : Nat := 64
def SCREEN_HEIGHT : Nat := 32
def KEYPAD_NUM_KEYS : Nat := 16

/-! ### Font table -/

/-- Modelled from the spec: the repository module `font.rs` (declared in
`lib.rs` as `mod font;` and providing `Font::default().set`, `CHARACTERS` and
`CHARACTER_SIZE`) is not under `src/`.  Spec §4.4 fixes it as "a fixed constant
table of 16 five-byte glyph bitmaps (one per hexadecimal digit 0–F), loaded
verbatim into memory starting at address 0"; the concrete byte values (the
standard CHIP-8 glyphs) are immaterial to every claim. -/
def fontSet : List Nat :=
  [0xF0, 0x90, 0x90, 0x90, 0xF0,
   0x20, 0x60, 0x20, 0x20, 0x70,
   0xF0, 0x10, 0xF0, 0x80, 0xF0,
   0xF0, 0x10, 0xF0, 0x10, 0xF0,
   0x90, 0x90, 0xF0, 0x10, 0x10,
   0xF0, 0x80, 0xF0, 0x10, 0xF0,
   0xF0, 0x80, 0xF0, 0x90, 0xF0,
   0xF0, 0x10, 0x20, 0x40, 0x40,
   0xF0, 0x90, 0xF0, 0x90, 0xF0,
   0xF0, 0x90, 0xF0, 0x10, 0xF0,
   0xF0, 0x90, 0xF0, 0x90, 0x90,
   0xE0, 0x90, 0xE0, 0x90, 0xE0,
   0xF0, 0x80, 0x80, 0x80, 0xF0,
   0xE0, 0x90, 0x90, 0x90, 0xE0,
   0xF0, 0x80, 0xF0, 0x80, 0xF0,
   0xF0, 0x80, 0xF0, 0x80, 0x80]

/-- Modelled from the spec: number of font glyphs (`CHARACTERS` in `font.rs`). -/
def CHARACTERS : Nat := 16

/-- Modelled from the spec: bytes per glyph (`CHARACTER_SIZE` in `font.rs`,
`glyphByteWidth = 5` in spec §4.4). -/
def CHARACTER_SIZE : Nat := 5

/-! ### Capability ports (`src/lib.rs` traits) -/

/-- The `Random` trait: `range(&self) -> u8`.  A deterministic instance is the
byte it returns. -/
structure Random where
  range : Nat
deriving DecidableEq

/-- The `Screen` trait.  `clear` returns nothing and `draw` returns the
collision boolean; the observable behaviour of a screen within one `tick` is the
sequence of collision results of its successive `draw` calls, so `draw k` is
the result of the k-th `draw` call of the tick (counting from 0).  The
arguments passed to each call are recorded in the `PortCall` trace. -/
structure Screen where
  draw : Nat → Bool

/-- The `Keypad` trait: `is_pressed(&self, keycode) -> bool` and
`pressed_key(&self) -> Option<u8>`. -/
structure Keypad where
  is_pressed : Nat → Bool
  pressed_key : Option Nat

/-- One call made by the core on a capability port, with its arguments. -/
inductive PortCall where
  | clear : PortCall
  | draw (x y : Nat) : PortCall
  | isPressed (keycode : Nat) : PortCall
  | pressedKey : PortCall
  | range : PortCall
deriving DecidableEq

/-! ### Machine state (`struct Chip`) -/

/-- The `Chip` struct of `src/chip.rs`. -/
structure Chip where
  /-- Rust `registers: [u8; NUM_RESGISTERS]` -/
  registers : List Nat
  /-- Rust `i: u16` (address register) -/
  i : Nat
  /-- Rust `memory: [u8; MEM_SIZE]` -/
  memory : List Nat
  /-- Rust `ip: usize` (instruction pointer / program counter) -/
  ip : Nat
  /-- Rust `stack: [u16; STACK_SIZE]` -/
  stack : List Nat
  /-- Rust `sp: usize` (stack pointer) -/
  sp : Nat
  /-- Rust `timers: [u8; NUM_TIMERS]` -/
  timers : List Nat
deriving DecidableEq

/-- Rust `impl Default for Chip`. -/
def Chip.default : Chip :=
  { registers := List.replicate NUM_RESGISTERS 0
    i := 0
    memory := List.replicate MEM_SIZE 0
    ip := PROG_START
    stack := List.replicate STACK_SIZE 0
    sp := 0
    timers := List.replicate NUM_TIMERS 0 }

/-- Rust `slice[off..off+src.len()].copy_from_slice(&src)`: write the bytes of
`src` into `mem` starting at offset `off`. -/
def writeSlice : List Nat → Nat → List Nat → List Nat
  | mem, _, [] => mem
  | mem, off, b :: rest => writeSlice (mem.set off b) (off + 1) rest

/-- Rust `Chip::load_program`: copy the font table to the start of memory, then the
program bytes at `PROG_START`. -/
def Chip.load_program (c : Chip) (program : List Nat) : Chip :=
  { c with memory := writeSlice (writeSlice c.memory 0 fontSet) PROG_START program }

/-- The two sequential conditional decrements of `Chip::tick_timers`, acting
on the `timers` array (the only field the method touches). -/
def tickTimersAux (t : List Nat) : List Nat :=
  let t1 :=
    if t.getD DELAY_TIMER 0 > 0 then t.set DELAY_TIMER (t.getD DELAY_TIMER 0 - 1) else t
  if t1.getD SOUND_TIMER 0 > 0 then t1.set SOUND_TIMER (t1.getD SOUND_TIMER 0 - 1) else t1

/-- Rust `Chip::tick_timers`: decrement each timer that is strictly positive. -/
def Chip.tick_timers (c : Chip) : Chip :=
  { c with timers := tickTimersAux c.timers }

/-! ### Instruction implementations (private methods of `impl Chip`) -/

/-- Rust `Chip::cls`: `screen.clear()`. -/
def Chip.cls (c : Chip) : Chip × List PortCall :=
  (c, [PortCall.clear])

/-- Rust `Chip::ret`: `sp -= 1; ip = stack[sp]`. -/
def Chip.ret (c : Chip) : Chip :=
  { c with sp := c.sp - 1, ip := c.stack.getD (c.sp - 1) 0 }

/-- Rust `Chip::jmp`: `ip = address`. -/
def Chip.jmp (c : Chip) (address : Nat) : Chip :=
  { c with ip := address }

/-- Rust `Chip::call`: `stack[sp] = ip as u16; sp += 1; ip = address`. -/
def Chip.call (c : Chip) (address : Nat) : Chip :=
  { c with stack := c.stack.set c.sp (c.ip % 65536), sp := c.sp + 1, ip := address }

/-- Rust `Chip::se_vx_byte`: skip if `registers[x] == value`. -/
def Chip.se_vx_byte (c : Chip) (x value : Nat) : Chip :=
  if c.registers.getD x 0 = value then { c with ip := c.ip + 2 } else c

/-- Rust `Chip::sne_vx_byte`: skip if `registers[x] != value`. -/
def Chip.sne_vx_byte (c : Chip) (x value : Nat) : Chip :=
  if c.registers.getD x 0 ≠ value then { c with ip := c.ip + 2 } else c

/-- Rust `Chip::ld_vx_byte`: `registers[x] = value`. -/
def Chip.ld_vx_byte (c : Chip) (x value : Nat) : Chip :=
  { c with registers := c.registers.set x value }

/-- Rust `Chip::add_vx_byte`: `registers[x] = registers[x].overflowing_add(value).0`. -/
def Chip.add_vx_byte (c : Chip) (x value : Nat) : Chip :=
  { c with registers := c.registers.set x ((c.registers.getD x 0 + value) % 256) }

/-- Rust `Chip::ld_vx_vy`: `registers[x] = registers[y]`. -/
def Chip.ld_vx_vy (c : Chip) (x y : Nat) : Chip :=
  { c with registers := c.registers.set x (c.registers.getD y 0) }

/-- Rust `Chip::or_vx_vy`: `registers[x] |= registers[y]`. -/
def Chip.or_vx_vy (c : Chip) (x y : Nat) : Chip :=
  { c with registers := c.registers.set x (c.registers.getD x 0 ||| c.registers.getD y 0) }

/-- Rust `Chip::and_vx_vy`: `registers[x] &= registers[y]`. -/
def Chip.and_vx_vy (c : Chip) (x y : Nat) : Chip :=
  { c with registers := c.registers.set x (c.registers.getD x 0 &&& c.registers.getD y 0) }

/-- Rust `Chip::xor_vx_vy`: `registers[x] ^= registers[y]`. -/
def Chip.xor_vx_vy (c : Chip) (x y : Nat) : Chip :=
  { c with registers := c.registers.set x (c.registers.getD x 0 ^^^ c.registers.getD y 0) }

/-- Rust `Chip::add_vx_vy`: wrapped sum into `registers[x]`, then carry bit of
`overflowing_add` into `registers[FLAG]` (in that order). -/
def Chip.add_vx_vy (c : Chip) (x y : Nat) : Chip :=
  let vx := c.registers.getD x 0
  let vy := c.registers.getD y 0
  let regs := c.registers.set x ((vx + vy) % 256)
  { c with registers := regs.set FLAG (if 256 ≤ vx + vy then 1 else 0) }

/-- Rust `Chip::sub_vx_vy`: wrapped difference `vx - vy` into `registers[x]`, then
`registers[FLAG] = 1` iff no borrow (`overflowing_sub` did not overflow). -/
def Chip.sub_vx_vy (c : Chip) (x y : Nat) : Chip :=
  let vx := c.registers.getD x 0
  let vy := c.registers.getD y 0
  let regs := c.registers.set x ((vx + 256 - vy) % 256)
  { c with registers := regs.set FLAG (if vx < vy then 0 else 1) }

/-- Rust `Chip::shr_vx`: `registers[FLAG] = registers[x] & 1`; `registers[x] >>= 1`. -/
def Chip.shr_vx (c : Chip) (x : Nat) : Chip :=
  let regs := c.registers.set FLAG (c.registers.getD x 0 &&& 0x01)
  { c with registers := regs.set x (regs.getD x 0 >>> 1) }

/-- Rust `Chip::subn_vx_vy`: wrapped difference `vy - vx` into `registers[x]`, then
`registers[FLAG] = 1` iff no borrow. -/
def Chip.subn_vx_vy (c : Chip) (x y : Nat) : Chip :=
  let vx := c.registers.getD x 0
  let vy := c.registers.getD y 0
  let regs := c.registers.set x ((vy + 256 - vx) % 256)
  { c with registers := regs.set FLAG (if vy < vx then 0 else 1) }

/-- Rust `Chip::shl_vx`: `registers[FLAG] = registers[x] >> 7`; `registers[x] <<= 1`
(wrapping shift on `u8`). -/
def Chip.shl_vx (c : Chip) (x : Nat) : Chip :=
  let regs := c.registers.set FLAG (c.registers.getD x 0 >>> 7)
  { c with registers := regs.set x ((regs.getD x 0 <<< 1) % 256) }

/-- Rust `Chip::sne_vx_vy`: skip if `registers[x] != registers[y]`. -/
def Chip.sne_vx_vy (c : Chip) (x y : Nat) : Chip :=
  if c.registers.getD x 0 ≠ c.registers.getD y 0 then { c with ip := c.ip + 2 } else c

/-- Rust `Chip::ld_i_addr`: `i = address`. -/
def Chip.ld_i_addr (c : Chip) (address : Nat) : Chip :=
  { c with i := address }

/-- Rust `Chip::jmp_v0_addr`: `ip = address + registers[0]`. -/
def Chip.jmp_v0_addr (c : Chip) (address : Nat) : Chip :=
  { c with ip := address + c.registers.getD 0 0 }

/-- Rust `Chip::rnd_vx_byte`: `registers[x] = random.range() & mask`. -/
def Chip.rnd_vx_byte (c : Chip) (random : Random) (x mask : Nat) : Chip × List PortCall :=
  ({ c with registers := c.registers.set x (random.range &&& mask) }, [PortCall.range])

/-- One iteration of the inner `for displace in 0..8` loop of
`Chip::draw_vx_vy_nibble`: test one bit of the sprite row `data` and, when
set, draw at the wrapped coordinate.  The accumulator is
`(collision, trace, number of draw calls made so far)`. -/
def drawBitStep (s : Screen) (data vx vy line : Nat)
    (acc : Bool × List PortCall × Nat) (displace : Nat) : Bool × List PortCall × Nat :=
  let bit := (data >>> displace) &&& 0x1
  if bit = 1 then
    let new_x := (vx + (7 - displace)) % 256 % SCREEN_WIDTH
    let new_y := (vy + line) % 256 % SCREEN_HEIGHT
    (acc.1 || s.draw acc.2.2, acc.2.1 ++ [PortCall.draw new_x new_y], acc.2.2 + 1)
  else acc

/-- One iteration of the outer `for line in 0..lines` loop of
`Chip::draw_vx_vy_nibble`: read the sprite row at `memory[i + line]` and run
the inner loop over its 8 bits. -/
def drawLineStep (c : Chip) (s : Screen) (vx vy : Nat)
    (acc : Bool × List PortCall × Nat) (line : Nat) : Bool × List PortCall × Nat :=
  let data := c.memory.getD (c.i + line) 0
  (List.range 8).foldl (drawBitStep s data vx vy line) acc

/-- The bit offsets (0 = least significant) of `ds` whose bit is set in
`data`. -/
def bitHits (data : Nat) (ds : List Nat) : List Nat :=
  ds.filter (fun d => (data >>> d) &&& 1 == 1)

/-- Rust `Chip::draw_vx_vy_nibble`: for each of `lines` sprite rows read from
`memory[i + line]` and each of the 8 bits of that row, if the bit is set, draw
at the wrapped coordinate and accumulate the collision results; finally
`registers[FLAG] = 1` iff any draw reported a collision. -/
def Chip.draw_vx_vy_nibble (c : Chip) (screen : Screen) (x y lines : Nat) :
    Chip × List PortCall :=
  let vx := c.registers.getD x 0
  let vy := c.registers.getD y 0
  let acc := (List.range lines).foldl (drawLineStep c screen vx vy) (false, [], 0)
  ({ c with registers := c.registers.set FLAG (if acc.1 then 1 else 0) }, acc.2.1)

/-- Rust `Chip::skp_vx`: skip if `keypad.is_pressed(registers[x])`. -/
def Chip.skp_vx (c : Chip) (keypad : Keypad) (x : Nat) : Chip × List PortCall :=
  let vx := c.registers.getD x 0
  (if keypad.is_pressed vx then { c with ip := c.ip + 2 } else c, [PortCall.isPressed vx])

/-- Rust `Chip::sknp_vx`: skip if `!keypad.is_pressed(registers[x])`. -/
def Chip.sknp_vx (c : Chip) (keypad : Keypad) (x : Nat) : Chip × List PortCall :=
  let vx := c.registers.getD x 0
  (if keypad.is_pressed vx then c else { c with ip := c.ip + 2 }, [PortCall.isPressed vx])

/-- Rust `Chip::ld_vx_dt`: `registers[x] = timers[DELAY_TIMER]`. -/
def Chip.ld_vx_dt (c : Chip) (x : Nat) : Chip :=
  { c with registers := c.registers.set x (c.timers.getD DELAY_TIMER 0) }

/-- Rust `Chip::ld_vx_k`: non-blocking key wait.  No key pressed rewinds `ip` by 2;
a pressed key is stored into `registers[x]`. -/
def Chip.ld_vx_k (c : Chip) (keypad : Keypad) (x : Nat) : Chip × List PortCall :=
  match keypad.pressed_key with
  | none => ({ c with ip := c.ip - 2 }, [PortCall.pressedKey])
  | some key => ({ c with registers := c.registers.set x key }, [PortCall.pressedKey])

/-- Rust `Chip::ld_dt_vx`: `timers[DELAY_TIMER] = registers[x]`. -/
def Chip.ld_dt_vx (c : Chip) (x : Nat) : Chip :=
  { c with timers := c.timers.set DELAY_TIMER (c.registers.getD x 0) }

/-- Rust `Chip::ld_st_vx`: `timers[SOUND_TIMER] = registers[x]`. -/
def Chip.ld_st_vx (c : Chip) (x : Nat) : Chip :=
  { c with timers := c.timers.set SOUND_TIMER (c.registers.getD x 0) }

/-- Rust `Chip::add_i_vx`: `i += registers[x]` (`u16` arithmetic). -/
def Chip.add_i_vx (c : Chip) (x : Nat) : Chip :=
  { c with i := (c.i + c.registers.getD x 0) % 65536 }

/-- Rust `Chip::ld_f_vx`: `i = (registers[x] * CHARACTER_SIZE as u8) as u16`
(the multiplication wraps at `u8`). -/
def Chip.ld_f_vx (c : Chip) (x : Nat) : Chip :=
  { c with i := c.registers.getD x 0 * CHARACTER_SIZE % 256 }

/-- Rust `Chip::ld_b_vx`: BCD of `registers[x]` into `memory[i..i+3]`. -/
def Chip.ld_b_vx (c : Chip) (x : Nat) : Chip :=
  let vx := c.registers.getD x 0
  { c with memory :=
      ((c.memory.set c.i (vx / 100)).set (c.i + 1) (vx % 100 / 10)).set (c.i + 2) (vx % 10) }

/-- Rust `Chip::ld_vi_vx`: store `registers[0..=x]` at `memory[i..]`; `i += x + 1`. -/
def Chip.ld_vi_vx (c : Chip) (x : Nat) : Chip :=
  let mem := (List.range (x + 1)).foldl
    (fun mem r => mem.set (c.i + r) (c.registers.getD r 0)) c.memory
  { c with memory := mem, i := c.i + (x + 1) }

/-- Rust `Chip::ld_vx_vi`: load `registers[0..=x]` from `memory[i..]`; `i += x + 1`. -/
def Chip.ld_vx_vi (c : Chip) (x : Nat) : Chip :=
  let regs := (List.range (x + 1)).foldl
    (fun regs r => regs.set r (c.memory.getD (c.i + r) 0)) c.registers
  { c with registers := regs, i := c.i + (x + 1) }

/-! ### Fetch-decode-execute (`Chip::tick`) -/

/-- Result of one `tick`: the new machine state, the trace of port calls made,
and the returned `execute` boolean. -/
structure TickResult where
  chip : Chip
  calls : List PortCall
  cont : Bool
deriving DecidableEq

/-- The `match option { .. }` sub-dispatch of the `0x8000..=0x8FFF` arm. -/
def execOp8 (c : Chip) (option x y : Nat) : TickResult :=
  if option = 0x0 then ⟨c.ld_vx_vy x y, [], true⟩
  else if option = 0x1 then ⟨c.or_vx_vy x y, [], true⟩
  else if option = 0x2 then ⟨c.and_vx_vy x y, [], true⟩
  else if option = 0x3 then ⟨c.xor_vx_vy x y, [], true⟩
  else if option = 0x4 then ⟨c.add_vx_vy x y, [], true⟩
  else if option = 0x5 then ⟨c.sub_vx_vy x y, [], true⟩
  else if option = 0x6 then ⟨c.shr_vx x, [], true⟩
  else if option = 0x7 then ⟨c.subn_vx_vy x y, [], true⟩
  else if option = 0xE then ⟨c.shl_vx x, [], true⟩
  else ⟨c, [], false⟩

/-- The `match op_low { .. }` sub-dispatch of the `0xE000..=0xEFFF` arm. -/
def execOpE (c : Chip) (op_low x : Nat) (keypad : Keypad) : TickResult :=
  if op_low = 0x9E then let r := c.skp_vx keypad x; ⟨r.1, r.2, true⟩
  else if op_low = 0xA1 then let r := c.sknp_vx keypad x; ⟨r.1, r.2, true⟩
  else ⟨c, [], false⟩

/-- The `match op_low { .. }` sub-dispatch of the `0xF000..=0xFFFF` arm. -/
def execOpF (c : Chip) (op_low x : Nat) (keypad : Keypad) : TickResult :=
  if op_low = 0x07 then ⟨c.ld_vx_dt x, [], true⟩
  else if op_low = 0x0A then let r := c.ld_vx_k keypad x; ⟨r.1, r.2, true⟩
  else if op_low = 0x15 then ⟨c.ld_dt_vx x, [], true⟩
  else if op_low = 0x18 then ⟨c.ld_st_vx x, [], true⟩
  else if op_low = 0x1E then ⟨c.add_i_vx x, [], true⟩
  else if op_low = 0x29 then ⟨c.ld_f_vx x, [], true⟩
  else if op_low = 0x33 then ⟨c.ld_b_vx x, [], true⟩
  else if op_low = 0x55 then ⟨c.ld_vi_vx x, [], true⟩
  else if op_low = 0x65 then ⟨c.ld_vx_vi x, [], true⟩
  else ⟨c, [], false⟩

/-- The dispatch part of `Chip::tick` (the `match opcode { .. }` block together
with the `execute` flag), acting on the state whose `ip` has already been
advanced by 2.  `op_low` is the raw low instruction byte
(`memory[ip + 1]`), used by the source both as immediate byte argument and as
the discriminant of the `0xE...`/`0xF...` sub-matches (split off above as
`execOp8`/`execOpE`/`execOpF`); the decoded fields `x`, `y`, `option` and
`address` are the bit fields the source extracts from `opcode`. -/
def execOp (c : Chip) (opcode op_low : Nat) (random : Random) (screen : Screen)
    (keypad : Keypad) : TickResult :=
  let x := (opcode &&& 0x0F00) >>> 8
  let y := (opcode &&& 0x00F0) >>> 4
  let option := opcode &&& 0x000F
  let address := opcode &&& 0x0FFF
  if opcode = 0x0000 then ⟨c, [], false⟩
  else if opcode = 0x00E0 then let r := c.cls; ⟨r.1, r.2, true⟩
  else if opcode = 0x00EE then ⟨c.ret, [], true⟩
  else if 0x1000 ≤ opcode ∧ opcode ≤ 0x1FFF then ⟨c.jmp address, [], true⟩
  else if 0x2000 ≤ opcode ∧ opcode ≤ 0x2FFF then ⟨c.call address, [], true⟩
  else if 0x3000 ≤ opcode ∧ opcode ≤ 0x3FFF then ⟨c.se_vx_byte x op_low, [], true⟩
  else if 0x4000 ≤ opcode ∧ opcode ≤ 0x4FFF then ⟨c.sne_vx_byte x op_low, [], true⟩
  else if 0x5000 ≤ opcode ∧ opcode ≤ 0x5FFF then ⟨c.sne_vx_vy x y, [], true⟩
  else if 0x6000 ≤ opcode ∧ opcode ≤ 0x6FFF then ⟨c.ld_vx_byte x op_low, [], true⟩
  else if 0x7000 ≤ opcode ∧ opcode ≤ 0x7FFF then ⟨c.add_vx_byte x op_low, [], true⟩
  else if 0x8000 ≤ opcode ∧ opcode ≤ 0x8FFF then execOp8 c option x y
  else if 0x9000 ≤ opcode ∧ opcode ≤ 0x9FFF then ⟨c.sne_vx_vy x y, [], true⟩
  else if 0xA000 ≤ opcode ∧ opcode ≤ 0xAFFF then ⟨c.ld_i_addr address, [], true⟩
  else if 0xB000 ≤ opcode ∧ opcode ≤ 0xBFFF then ⟨c.jmp_v0_addr address, [], true⟩
  else if 0xC000 ≤ opcode ∧ opcode ≤ 0xCFFF then
    let r := c.rnd_vx_byte random x op_low; ⟨r.1, r.2, true⟩
  else if 0xD000 ≤ opcode ∧ opcode ≤ 0xDFFF then
    let r := c.draw_vx_vy_nibble screen x y option; ⟨r.1, r.2, true⟩
  else if 0xE000 ≤ opcode ∧ opcode ≤ 0xEFFF then execOpE c op_low x keypad
  else if 0xF000 ≤ opcode ∧ opcode ≤ 0xFFFF then execOpF c op_low x keypad
  else ⟨c, [], false⟩

/-- Rust `Chip::tick`: fetch the two instruction bytes at `ip`, compose the opcode
big-endian, advance `ip` by 2, then dispatch. -/
def Chip.tick (c : Chip) (random : Random) (screen : Screen) (keypad : Keypad) :
    TickResult :=
  let op_high := c.memory.getD c.ip 0
  let op_low := c.memory.getD (c.ip + 1) 0
  let opcode := op_high <<< 8 ||| op_low
  execOp { c with ip := c.ip + 2 } opcode op_low random screen keypad

/-! ### Spec-side definitions (stated in the words of the specification, for
comparison against the embedded code) -/

/-- The opcode `tick` fetches at the current instruction pointer:
`memory[ip] << 8 | memory[ip + 1]`. -/
def opcodeAt (c : Chip) : Nat :=
  c.memory.getD c.ip 0 <<< 8 ||| c.memory.getD (c.ip + 1) 0

/-- The instruction classes of the spec §4.3 table, read literally: each entry
decides membership of a 16-bit opcode in one class.  The rows `SE Vx,Vy
(0x5xy0)` and `SNE Vx,Vy (0x9xy0)` require a zero low nibble, the ALU group
row is one class per listed low nibble, `SKP/SKNP` and the `0xFx..` rows are
keyed on the low byte, and the remaining rows are keyed on the high nibble
alone. -/
def specInstructionClasses : List (Nat → Bool) :=
  [ fun op => op == 0x00E0,
    fun op => op == 0x00EE,
    fun op => op / 4096 == 0x1,
    fun op => op / 4096 == 0x2,
    fun op => op / 4096 == 0x3,
    fun op => op / 4096 == 0x4,
    fun op => op / 4096 == 0x5 && op % 16 == 0x0,
    fun op => op / 4096 == 0x6,
    fun op => op / 4096 == 0x7,
    fun op => op / 4096 == 0x8 && op % 16 == 0x0,
    fun op => op / 4096 == 0x8 && op % 16 == 0x1,
    fun op => op / 4096 == 0x8 && op % 16 == 0x2,
    fun op => op / 4096 == 0x8 && op % 16 == 0x3,
    fun op => op / 4096 == 0x8 && op % 16 == 0x4,
    fun op => op / 4096 == 0x8 && op % 16 == 0x5,
    fun op => op / 4096 == 0x8 && op % 16 == 0x6,
    fun op => op / 4096 == 0x8 && op % 16 == 0x7,
    fun op => op / 4096 == 0x8 && op % 16 == 0xE,
    fun op => op / 4096 == 0x9 && op % 16 == 0x0,
    fun op => op / 4096 == 0xA,
    fun op => op / 4096 == 0xB,
    fun op => op / 4096 == 0xC,
    fun op => op / 4096 == 0xD,
    fun op => op / 4096 == 0xE && op % 256 == 0x9E,
    fun op => op / 4096 == 0xE && op % 256 == 0xA1,
    fun op => op / 4096 == 0xF && op % 256 == 0x07,
    fun op => op / 4096 == 0xF && op % 256 == 0x0A,
    fun op => op / 4096 == 0xF && op % 256 == 0x15,
    fun op => op / 4096 == 0xF && op % 256 == 0x18,
    fun op => op / 4096 == 0xF && op % 256 == 0x1E,
    fun op => op / 4096 == 0xF && op % 256 == 0x29,
    fun op => op / 4096 == 0xF && op % 256 == 0x33,
    fun op => op / 4096 == 0xF && op % 256 == 0x55,
    fun op => op / 4096 == 0xF && op % 256 == 0x65 ]

/-- Number of classes of the literal spec table an opcode belongs to. -/
def specMatchCount (op : Nat) : Nat :=
  specInstructionClasses.countP (fun p => p op)

/-- The spec table amended to the decoder the code implements: identical to
`specInstructionClasses` except that the `0x5xy0` and `0x9xy0` rows match on
the high nibble alone (any low nibble). -/
def amendedInstructionClasses : List (Nat → Bool) :=
  [ fun op => op == 0x00E0,
    fun op => op == 0x00EE,
    fun op => op / 4096 == 0x1,
    fun op => op / 4096 == 0x2,
    fun op => op / 4096 == 0x3,
    fun op => op / 4096 == 0x4,
    fun op => op / 4096 == 0x5,
    fun op => op / 4096 == 0x6,
    fun op => op / 4096 == 0x7,
    fun op => op / 4096 == 0x8 && op % 16 == 0x0,
    fun op => op / 4096 == 0x8 && op % 16 == 0x1,
    fun op => op / 4096 == 0x8 && op % 16 == 0x2,
    fun op => op / 4096 == 0x8 && op % 16 == 0x3,
    fun op => op / 4096 == 0x8 && op % 16 == 0x4,
    fun op => op / 4096 == 0x8 && op % 16 == 0x5,
    fun op => op / 4096 == 0x8 && op % 16 == 0x6,
    fun op => op / 4096 == 0x8 && op % 16 == 0x7,
    fun op => op / 4096 == 0x8 && op % 16 == 0xE,
    fun op => op / 4096 == 0x9,
    fun op => op / 4096 == 0xA,
    fun op => op / 4096 == 0xB,
    fun op => op / 4096 == 0xC,
    fun op => op / 4096 == 0xD,
    fun op => op / 4096 == 0xE && op % 256 == 0x9E,
    fun op => op / 4096 == 0xE && op % 256 == 0xA1,
    fun op => op / 4096 == 0xF && op % 256 == 0x07,
    fun op => op / 4096 == 0xF && op % 256 == 0x0A,
    fun op => op / 4096 == 0xF && op % 256 == 0x15,
    fun op => op / 4096 == 0xF && op % 256 == 0x18,
    fun op => op / 4096 == 0xF && op % 256 == 0x1E,
    fun op => op / 4096 == 0xF && op % 256 == 0x29,
    fun op => op / 4096 == 0xF && op % 256 == 0x33,
    fun op => op / 4096 == 0xF && op % 256 == 0x55,
    fun op => op / 4096 == 0xF && op % 256 == 0x65 ]

/-- Number of amended classes an opcode belongs to. -/
def amendedMatchCount (op : Nat) : Nat :=
  amendedInstructionClasses.countP (fun p => p op)

/-- Read `len` bytes of `mem` starting at offset `off`
(`mem[off..off+len)`). -/
def readSlice (mem : List Nat) (off len : Nat) : List Nat :=
  (List.range len).map (fun j => mem.getD (off + j) 0)

/-- Whether any of the draw calls numbered `k, k+1, …, k+n-1` of the tick
reports a collision on screen `s`. -/
def anyDraw (s : Screen) (k n : Nat) : Bool :=
  (List.range n).any (fun j => s.draw (k + j))

/-- The `DRW` pixel list in the words of the spec: read `n` consecutive bytes
starting at `mem[i]`; for each of the 8 bits of each byte, if the bit is 1,
the target pixel coordinate is
`((vx + (7 − bitOffset)) mod 64, (vy + rowIndex) mod 32)`, where bit offset 7
is the most significant bit. -/
def drawCallsSpec (mem : List Nat) (i vx vy n : Nat) : List (Nat × Nat) :=
  (List.range n).flatMap (fun rowIndex =>
    ((List.range 8).filter
        (fun bitOffset => (mem.getD (i + rowIndex) 0 >>> bitOffset) &&& 1 == 1)).map
      (fun bitOffset => ((vx + (7 - bitOffset)) % 64, (vy + rowIndex) % 32)))

/-! ## Helper lemmas on bit manipulation and lists -/

theorem and_shiftRight_distrib (a b n : Nat) :
    (a &&& b) >>> n = (a >>> n) &&& (b >>> n) := by
  apply Nat.eq_of_testBit_eq
  intro i
  simp [Nat.testBit_shiftRight, Nat.testBit_and]

/-- Big-endian composition: `h << 8 | l` is `256 * h + l` when `l` fits in a
byte. -/
theorem shiftLeft8_or_eq (h l : Nat) (hl : l < 256) : h <<< 8 ||| l = 256 * h + l := by
  apply Nat.eq_of_testBit_eq
  intro i
  rw [Nat.testBit_or, show (256 : Nat) * h + l = 2 ^ 8 * h + l by norm_num,
    Nat.testBit_mul_pow_two_add h (show l < 2 ^ 8 by simpa using hl) i,
    Nat.testBit_shiftLeft]
  by_cases hi : i < 8
  · simp [hi, Nat.not_le.mpr hi]
  · have hge : 8 ≤ i := Nat.le_of_not_lt hi
    have hbit : l.testBit i = false :=
      Nat.testBit_lt_two_pow (lt_of_lt_of_le hl (by
        calc (256 : Nat) = 2 ^ 8 := by norm_num
        _ ≤ 2 ^ i := Nat.pow_le_pow_right (by norm_num) hge))
    simp [hi, hge, hbit]

theorem and_mask15 (n : Nat) : n &&& 0x000F = n % 16 := by
  have h := Nat.and_pow_two_sub_one_eq_mod n 4
  norm_num at h
  exact h

theorem and_mask255 (n : Nat) : n &&& 0x00FF = n % 256 := by
  have h := Nat.and_pow_two_sub_one_eq_mod n 8
  norm_num at h
  exact h

theorem and_mask4095 (n : Nat) : n &&& 0x0FFF = n % 4096 := by
  have h := Nat.and_pow_two_sub_one_eq_mod n 12
  norm_num at h
  exact h

/-- Decoding the `x` register field of an opcode `256 * h + l`. -/
theorem decode_x (h l : Nat) (hl : l < 256) :
    ((256 * h + l) &&& 0x0F00) >>> 8 = h % 16 := by
  rw [and_shiftRight_distrib, Nat.shiftRight_eq_div_pow, Nat.shiftRight_eq_div_pow]
  norm_num
  rw [show (256 * h + l) / 256 = h by omega, and_mask15]

/-- Decoding the `y` register field of an opcode `256 * h + l`. -/
theorem decode_y (h l : Nat) (hl : l < 256) :
    ((256 * h + l) &&& 0x00F0) >>> 4 = l / 16 := by
  rw [and_shiftRight_distrib, Nat.shiftRight_eq_div_pow, Nat.shiftRight_eq_div_pow]
  norm_num
  rw [and_mask15]
  omega

/-- Decoding the low nibble of an opcode `256 * h + l`. -/
theorem decode_n (h l : Nat) (hl : l < 256) : (256 * h + l) &&& 0x000F = l % 16 := by
  rw [and_mask15]
  omega

/-- Decoding the 12-bit address field of an opcode `256 * h + l`. -/
theorem decode_addr (h l : Nat) (hl : l < 256) :
    (256 * h + l) &&& 0x0FFF = h % 16 * 256 + l := by
  rw [and_mask4095]
  omega

theorem getD_set_self (xs : List Nat) (a w : Nat) (ha : a < xs.length) :
    (xs.set a w).getD a 0 = w := by
  rw [List.getD_eq_getElem?_getD, List.getElem?_set_self (by simpa using ha)]
  rfl

theorem getD_set_ne (xs : List Nat) (a b w : Nat) (hab : a ≠ b) :
    (xs.set a w).getD b 0 = xs.getD b 0 := by
  rw [List.getD_eq_getElem?_getD, List.getElem?_set_ne hab, ← List.getD_eq_getElem?_getD]

theorem getD_pos_lt_length (l : List Nat) (i : Nat) (h : 0 < l.getD i 0) :
    i < l.length := by
  by_contra hc
  rw [List.getD_eq_default _ _ (Nat.le_of_not_lt hc)] at h
  exact Nat.lt_irrefl 0 h

theorem getD_bound (l : List Nat) (i : Nat) (h : ∀ b ∈ l, b < 256) :
    l.getD i 0 < 256 := by
  by_cases hi : i < l.length
  · rw [List.getD_eq_getElem _ _ hi]
    exact h _ (l.getElem_mem hi)
  · rw [List.getD_eq_default _ _ (Nat.le_of_not_lt hi)]
    norm_num

theorem writeSlice_length (src : List Nat) : ∀ (mem : List Nat) (off : Nat),
    (writeSlice mem off src).length = mem.length := by
  induction src with
  | nil => intro mem off; rfl
  | cons b rest ih =>
    intro mem off
    rw [writeSlice, ih, List.length_set]

/-- Writing with `writeSlice` does not touch offsets below the write window. -/
theorem writeSlice_getD_below (src : List Nat) : ∀ (mem : List Nat) (off j : Nat),
    j < off → (writeSlice mem off src).getD j 0 = mem.getD j 0 := by
  induction src with
  | nil => intro mem off j _; rfl
  | cons b rest ih =>
    intro mem off j hj
    rw [writeSlice, ih _ _ _ (by omega), getD_set_ne _ _ _ _ (by omega)]

/-- Reading back inside the write window returns the written bytes. -/
theorem writeSlice_getD (src : List Nat) : ∀ (mem : List Nat) (off j : Nat),
    j < src.length → off + src.length ≤ mem.length →
    (writeSlice mem off src).getD (off + j) 0 = src.getD j 0 := by
  induction src with
  | nil =>
    intro mem off j hj _
    exact absurd hj (by simp)
  | cons b rest ih =>
    intro mem off j hj hlen
    rw [writeSlice]
    cases j with
    | zero =>
      rw [writeSlice_getD_below rest _ _ _ (by omega), Nat.add_zero,
        getD_set_self _ _ _ (by simp at hlen; omega)]
      rfl
    | succ jj =>
      rw [show off + (jj + 1) = (off + 1) + jj by omega,
        ih _ _ _ (by simp at hj; omega) (by rw [List.length_set]; simp at hlen; omega)]
      rfl

/-! ## Claim theorems -/

/-- C3 counterexample: the claim quantifies over all register indices `x`,
but for `x = 15` (the flag register) the flag write happens after the sum
write and overwrites it, so `registers[15]` does not end up holding the
wrapped sum.  With `registers[15] = 100` and `registers[1] = 100`,
`ADD V15,V1` leaves `registers[15] = 0`, not `(100 + 100) % 256 = 200`. -/
theorem claim_C3_counterexample :
    ¬ (({ Chip.default with
            registers := ((List.replicate 16 0).set 15 100).set 1 100 }.add_vx_vy 15 1).registers.getD 15 0 =
          (100 + 100) % 256) := by
  decide

/-- C3 (amended: for every register index `x` other than the flag register):
`ADD Vx,Vy` stores the sum of the pre-call values of `registers[x]` and
`registers[y]` modulo 256 into `registers[x]`, and sets `registers[FLAG]` to 1
if the unsigned sum exceeds 255 and to 0 otherwise. -/
theorem claim_C3_amended : ∀ (c : Chip) (x y : Nat),
    c.registers.length = 16 → x < 16 → y < 16 → x ≠ FLAG →
    (c.add_vx_vy x y).registers.getD x 0 =
      (c.registers.getD x 0 + c.registers.getD y 0) % 256 ∧
    (c.add_vx_vy x y).registers.getD FLAG 0 =
      (if 255 < c.registers.getD x 0 + c.registers.getD y 0 then 1 else 0) := by
  intro c x y hlen hx hy hxf
  simp only [Chip.add_vx_vy]
  constructor
  · rw [getD_set_ne _ _ _ _ (fun hh => hxf hh.symm),
      getD_set_self _ _ _ (by rw [hlen]; exact hx)]
  · rw [getD_set_self _ _ _ (by rw [List.length_set, hlen]; norm_num [FLAG])]
    exact if_congr (by omega) rfl rfl

/-- C3 witness: the scenario given in the spec `registers[1] = 240, registers[2] = 40`
gives `registers[1] = 24` and `registers[FLAG] = 1` after `ADD V1,V2`. -/
theorem claim_C3_witness :
    (({ Chip.default with
          registers := ((List.replicate 16 0).set 1 240).set 2 40 } : Chip).add_vx_vy 1 2).registers.getD 1 0 =
        (240 + 40) % 256 ∧
    (({ Chip.default with
          registers := ((List.replicate 16 0).set 1 240).set 2 40 } : Chip).add_vx_vy 1 2).registers.getD FLAG 0 = 1 := by
  have h := claim_C3_amended
    { Chip.default with registers := ((List.replicate 16 0).set 1 240).set 2 40 }
    1 2 (by decide) (by decide) (by decide) (by decide)
  exact ⟨h.1.trans (by decide), h.2.trans (by decide)⟩

/-- C6: `CALL nnn` pushes the current program counter at `callStack[sp]`,
increments the stack pointer and jumps to `nnn`; a subsequent `RET` restores
the saved program counter and stack pointer.  The second conjunct is the
concrete scenario given in the spec from `programCounter = 0x200`. -/
theorem claim_C6_call_ret : (∀ (c : Chip) (nnn : Nat),
    c.sp < STACK_SIZE → c.stack.length = STACK_SIZE → c.ip < 65536 →
    (c.call nnn).stack.getD c.sp 0 = c.ip ∧ (c.call nnn).sp = c.sp + 1 ∧
    (c.call nnn).ip = nnn ∧
    (c.call nnn).ret.ip = c.ip ∧ (c.call nnn).ret.sp = c.sp) ∧
    ((Chip.default.call 0x205).sp = 1 ∧
     (Chip.default.call 0x205).stack.getD 0 0 = 0x200 ∧
     (Chip.default.call 0x205).ip = 0x205 ∧
     (Chip.default.call 0x205).ret.ip = 0x200 ∧
     (Chip.default.call 0x205).ret.sp = 0) := by
  constructor
  · intro c nnn hsp hlen hip
    have hset : (c.stack.set c.sp (c.ip % 65536)).getD c.sp 0 = c.ip := by
      rw [getD_set_self _ _ _ (by rw [hlen]; exact hsp)]
      omega
    simp only [Chip.call, Chip.ret]
    refine ⟨hset, by simp, by simp, ?_, by simp⟩
    simpa using hset
  · decide

/-- C6 witness: the general part of C6 applied at the default chip and address
0x205. -/
theorem claim_C6_witness :
    (Chip.default.call 0x205).stack.getD Chip.default.sp 0 = Chip.default.ip ∧
    (Chip.default.call 0x205).sp = Chip.default.sp + 1 ∧
    (Chip.default.call 0x205).ip = 0x205 ∧
    (Chip.default.call 0x205).ret.ip = Chip.default.ip ∧
    (Chip.default.call 0x205).ret.sp = Chip.default.sp :=
  claim_C6_call_ret.1 Chip.default 0x205 (by decide) (by decide) (by decide)

/-- C8: `tickTimers` decrements the delay timer exactly when it is positive
and independently decrements the sound timer exactly when it is positive
(each floors at 0), and when the delay timer is 0 any number of repeated
`tickTimers` calls leaves it at 0. -/
theorem claim_C8_tick_timers : (∀ c : Chip,
    c.tick_timers.timers.getD DELAY_TIMER 0 =
      (if 0 < c.timers.getD DELAY_TIMER 0 then c.timers.getD DELAY_TIMER 0 - 1
       else c.timers.getD DELAY_TIMER 0) ∧
    c.tick_timers.timers.getD SOUND_TIMER 0 =
      (if 0 < c.timers.getD SOUND_TIMER 0 then c.timers.getD SOUND_TIMER 0 - 1
       else c.timers.getD SOUND_TIMER 0)) ∧
    ∀ (c : Chip) (n : Nat), c.timers.getD DELAY_TIMER 0 = 0 →
      (Chip.tick_timers^[n] c).timers.getD DELAY_TIMER 0 = 0 := by
  have hdsne : (DELAY_TIMER : Nat) ≠ SOUND_TIMER := by norm_num [DELAY_TIMER, SOUND_TIMER]
  have main : ∀ c : Chip,
      c.tick_timers.timers.getD DELAY_TIMER 0 =
        (if 0 < c.timers.getD DELAY_TIMER 0 then c.timers.getD DELAY_TIMER 0 - 1
         else c.timers.getD DELAY_TIMER 0) ∧
      c.tick_timers.timers.getD SOUND_TIMER 0 =
        (if 0 < c.timers.getD SOUND_TIMER 0 then c.timers.getD SOUND_TIMER 0 - 1
         else c.timers.getD SOUND_TIMER 0) := by
    intro c
    simp only [Chip.tick_timers, tickTimersAux, gt_iff_lt]
    by_cases hd : 0 < c.timers.getD DELAY_TIMER 0 <;>
      by_cases hs : 0 < c.timers.getD SOUND_TIMER 0
    · -- both positive
      rw [if_pos hd,
        show (c.timers.set DELAY_TIMER (c.timers.getD DELAY_TIMER 0 - 1)).getD SOUND_TIMER 0
            = c.timers.getD SOUND_TIMER 0 from getD_set_ne _ _ _ _ hdsne,
        if_pos hs]
      constructor
      · rw [getD_set_ne _ _ _ _ (fun hq => hdsne hq.symm),
          getD_set_self _ _ _ (getD_pos_lt_length _ _ hd), if_pos hd]
      · rw [getD_set_self _ _ _ (by
            rw [List.length_set]
            exact getD_pos_lt_length _ _ hs), if_pos hs]
    · -- delay positive, sound zero
      rw [if_pos hd,
        show (c.timers.set DELAY_TIMER (c.timers.getD DELAY_TIMER 0 - 1)).getD SOUND_TIMER 0
            = c.timers.getD SOUND_TIMER 0 from getD_set_ne _ _ _ _ hdsne,
        if_neg hs]
      constructor
      · rw [getD_set_self _ _ _ (getD_pos_lt_length _ _ hd), if_pos hd]
      · rw [getD_set_ne _ _ _ _ hdsne, if_neg hs]
    · -- delay zero, sound positive
      rw [if_neg hd, if_pos hs]
      constructor
      · rw [getD_set_ne _ _ _ _ (fun hq => hdsne hq.symm), if_neg hd]
      · rw [getD_set_self _ _ _ (getD_pos_lt_length _ _ hs), if_pos hs]
    · -- both zero
      rw [if_neg hd, if_neg hs]
      exact ⟨(if_neg hd).symm, (if_neg hs).symm⟩
  refine ⟨main, ?_⟩
  intro c n h
  induction n generalizing c with
  | zero => exact h
  | succ n ih =>
    rw [Function.iterate_succ_apply]
    apply ih
    rw [(main c).1, h]
    norm_num

/-- C8 witness: the iteration part of C8 applied at the default chip (whose
delay timer is 0) for three iterations. -/
theorem claim_C8_witness :
    (Chip.tick_timers^[3] Chip.default).timers.getD DELAY_TIMER 0 = 0 :=
  claim_C8_tick_timers.2 Chip.default 3 (by decide)

/-- Bytes written by `writeSlice` stay below 256 when both inputs do. -/
theorem writeSlice_bound (src : List Nat) : ∀ (mem : List Nat) (off : Nat),
    (∀ b ∈ mem, b < 256) → (∀ b ∈ src, b < 256) →
    ∀ b ∈ writeSlice mem off src, b < 256 := by
  induction src with
  | nil => intro mem off hm _ b hb; exact hm b hb
  | cons a rest ih =>
    intro mem off hm hs b hb
    refine ih _ _ ?_ (fun q hq => hs q (List.mem_cons_of_mem a hq)) b hb
    intro q hq
    rcases List.mem_or_eq_of_mem_set hq with hq1 | hq2
    · exact hm q hq1
    · rw [hq2]; exact hs a (List.mem_cons_self a rest)

/-- Dispatch lemma: opcodes `0x5000..=0x5FFF` route to `sne_vx_vy`. -/
theorem execOp_dispatch_5 (c : Chip) (op lo : Nat) (r : Random) (s : Screen)
    (kp : Keypad) (h : 0x5000 ≤ op ∧ op ≤ 0x5FFF) :
    execOp c op lo r s kp =
      ⟨c.sne_vx_vy ((op &&& 0x0F00) >>> 8) ((op &&& 0x00F0) >>> 4), [], true⟩ := by
  simp only [execOp]
  repeat rw [if_neg (by omega)]
  rw [if_pos h]

/-- Dispatch lemma: opcodes `0x9000..=0x9FFF` route to `sne_vx_vy` as well. -/
theorem execOp_dispatch_9 (c : Chip) (op lo : Nat) (r : Random) (s : Screen)
    (kp : Keypad) (h : 0x9000 ≤ op ∧ op ≤ 0x9FFF) :
    execOp c op lo r s kp =
      ⟨c.sne_vx_vy ((op &&& 0x0F00) >>> 8) ((op &&& 0x00F0) >>> 4), [], true⟩ := by
  simp only [execOp]
  repeat rw [if_neg (by omega)]
  rw [if_pos h]

/-- Dispatch lemma: opcodes `0xF000..=0xFFFF` route to the `0xFx..` group. -/
theorem execOp_dispatch_F (c : Chip) (op lo : Nat) (r : Random) (s : Screen)
    (kp : Keypad) (h : 0xF000 ≤ op ∧ op ≤ 0xFFFF) :
    execOp c op lo r s kp = execOpF c lo ((op &&& 0x0F00) >>> 8) kp := by
  simp only [execOp]
  repeat rw [if_neg (by omega)]
  rw [if_pos h]

/-- C5: `LD Vx,K` (opcode `0xFx0A`): in a tick where the keypad reports no
pressed key, the program counter ends where it started (the −2 rewind cancels
the +2 advance) and no register is written; when a key `k` is reported,
`registers[x]` is set to `k` and the program counter ends 2 past its pre-tick
value. -/
theorem claim_C5_ld_vx_k : ∀ (c : Chip) (r : Random) (s : Screen) (kp : Keypad) (x : Nat),
    x < 16 →
    c.memory.getD c.ip 0 = 0xF0 + x →
    c.memory.getD (c.ip + 1) 0 = 0x0A →
    (kp.pressed_key = none →
      (c.tick r s kp).chip.ip = c.ip ∧
      (c.tick r s kp).chip.registers = c.registers) ∧
    (∀ key, kp.pressed_key = some key →
      (c.tick r s kp).chip.registers = c.registers.set x key ∧
      (c.tick r s kp).chip.ip = c.ip + 2) := by
  intro c r s kp x hx hhi hlo
  simp only [Chip.tick]
  rw [hhi, hlo, shiftLeft8_or_eq _ _ (by norm_num),
    execOp_dispatch_F _ _ _ _ _ _ (by omega)]
  simp only [execOpF]
  rw [decode_x _ _ (by norm_num), show (0xF0 + x) % 16 = x by omega]
  norm_num
  simp only [Chip.ld_vx_k]
  constructor
  · intro hnone
    rw [hnone]
    exact ⟨by simp, rfl⟩
  · intro key hsome
    rw [hsome]
    exact ⟨rfl, rfl⟩

/-- C5 witness: C5 applied at a chip whose next instruction is `0xF10A`, once
with a keypad reporting no key and once with a keypad reporting key 7. -/
theorem claim_C5_witness :
    (({ Chip.default with
          memory := ((List.replicate 4096 0).set 0x200 0xF1).set 0x201 0x0A } : Chip).tick
        ⟨1⟩ ⟨fun _ => false⟩ ⟨fun _ => false, none⟩).chip.ip = 0x200 ∧
    (({ Chip.default with
          memory := ((List.replicate 4096 0).set 0x200 0xF1).set 0x201 0x0A } : Chip).tick
        ⟨1⟩ ⟨fun _ => false⟩ ⟨fun _ => false, some 7⟩).chip.ip = 0x202 := by
  have h1 := claim_C5_ld_vx_k
    { Chip.default with memory := ((List.replicate 4096 0).set 0x200 0xF1).set 0x201 0x0A }
    ⟨1⟩ ⟨fun _ => false⟩ ⟨fun _ => false, none⟩ 1 (by norm_num) (by decide) (by decide)
  have h2 := claim_C5_ld_vx_k
    { Chip.default with memory := ((List.replicate 4096 0).set 0x200 0xF1).set 0x201 0x0A }
    ⟨1⟩ ⟨fun _ => false⟩ ⟨fun _ => false, some 7⟩ 1 (by norm_num) (by decide) (by decide)
  exact ⟨(h1.1 rfl).1, (h2.2 7 rfl).2⟩

/-- C7: the `0x5xy0` and `0x9xy0` opcode classes execute the same comparison:
for every machine state, both skip the next instruction (a further +2 on top
of the fetch advance) exactly when `registers[x] != registers[y]`, and both
leave the program counter at just the fetch advance when the registers are
equal. -/
theorem claim_C7_skip_families : ∀ (c : Chip) (r : Random) (s : Screen) (kp : Keypad)
    (x y : Nat), x < 16 → y < 16 →
    (c.memory.getD c.ip 0 = 0x50 + x ∨ c.memory.getD c.ip 0 = 0x90 + x) →
    c.memory.getD (c.ip + 1) 0 = 16 * y →
    (c.tick r s kp).chip =
      (if c.registers.getD x 0 ≠ c.registers.getD y 0
       then { c with ip := c.ip + 2 + 2 } else { c with ip := c.ip + 2 }) ∧
    (c.tick r s kp).calls = [] ∧ (c.tick r s kp).cont = true := by
  intro c r s kp x y hx hy hhi hlo
  simp only [Chip.tick]
  rw [hlo]
  rcases hhi with hh | hh <;>
    rw [hh, shiftLeft8_or_eq _ _ (by omega)]
  · rw [execOp_dispatch_5 _ _ _ _ _ _ (by omega), decode_x _ _ (by omega),
      decode_y _ _ (by omega), show (0x50 + x) % 16 = x by omega,
      show 16 * y / 16 = y by omega]
    simp only [Chip.sne_vx_vy]
    exact ⟨trivial, trivial, trivial⟩
  · rw [execOp_dispatch_9 _ _ _ _ _ _ (by omega), decode_x _ _ (by omega),
      decode_y _ _ (by omega), show (0x90 + x) % 16 = x by omega,
      show 16 * y / 16 = y by omega]
    simp only [Chip.sne_vx_vy]
    exact ⟨trivial, trivial, trivial⟩

/-- C7 witness: C7 applied at chips whose next instruction is `0x5120` and
`0x9120` respectively, with equal registers (no skip). -/
theorem claim_C7_witness :
    (({ Chip.default with
          memory := ((List.replicate 4096 0).set 0x200 0x51).set 0x201 0x20 } : Chip).tick
        ⟨1⟩ ⟨fun _ => false⟩ ⟨fun _ => false, none⟩).chip.ip = 0x202 ∧
    (({ Chip.default with
          memory := ((List.replicate 4096 0).set 0x200 0x91).set 0x201 0x20 } : Chip).tick
        ⟨1⟩ ⟨fun _ => false⟩ ⟨fun _ => false, none⟩).cont = true := by
  have h5 := claim_C7_skip_families
    { Chip.default with memory := ((List.replicate 4096 0).set 0x200 0x51).set 0x201 0x20 }
    ⟨1⟩ ⟨fun _ => false⟩ ⟨fun _ => false, none⟩ 1 2 (by norm_num) (by norm_num)
    (Or.inl (by decide)) (by decide)
  have h9 := claim_C7_skip_families
    { Chip.default with memory := ((List.replicate 4096 0).set 0x200 0x91).set 0x201 0x20 }
    ⟨1⟩ ⟨fun _ => false⟩ ⟨fun _ => false, none⟩ 1 2 (by norm_num) (by norm_num)
    (Or.inr (by decide)) (by decide)
  constructor
  · have := congrArg Chip.ip h5.1
    rw [this]
    decide
  · exact h9.2.2

/-- C9: `loadProgram` writes the font table at address 0 and the program bytes
at 0x200 (reading those regions back returns exactly the font table and the
program), and changes no other state: registers, `I`, program counter, call
stack, stack pointer and timers are untouched. -/
theorem claim_C9_load_program : ∀ (c : Chip) (program : List Nat),
    c.memory.length = MEM_SIZE → program.length ≤ PROGRAM_SIZE →
    readSlice (c.load_program program).memory 0 fontSet.length = fontSet ∧
    readSlice (c.load_program program).memory PROG_START program.length = program ∧
    (c.load_program program).registers = c.registers ∧
    (c.load_program program).i = c.i ∧
    (c.load_program program).ip = c.ip ∧
    (c.load_program program).stack = c.stack ∧
    (c.load_program program).sp = c.sp ∧
    (c.load_program program).timers = c.timers := by
  intro c program hmem hprog
  have hfl : fontSet.length = 80 := by rfl
  have hwl : (writeSlice c.memory 0 fontSet).length = c.memory.length :=
    writeSlice_length fontSet c.memory 0
  refine ⟨?fontPart, ?progPart, rfl, rfl, Eq.refl _, rfl, Eq.refl _, rfl⟩
  · apply List.ext_getElem
    · simp [readSlice]
    · intro n h1 h2
      simp only [readSlice, List.getElem_map, List.getElem_range]
      have hn : n < fontSet.length := by simpa [readSlice] using h1
      simp only [Chip.load_program]
      rw [writeSlice_getD_below program _ _ _ (by
            rw [hfl] at hn
            norm_num [PROG_START]
            omega),
        show (0 : Nat) + n = 0 + n by rfl]
      rw [writeSlice_getD fontSet _ _ _ hn (by rw [hmem, hfl]; norm_num [MEM_SIZE])]
      exact List.getD_eq_getElem _ _ h2
  · apply List.ext_getElem
    · simp [readSlice]
    · intro n h1 h2
      simp only [readSlice, List.getElem_map, List.getElem_range]
      have hn : n < program.length := by simpa [readSlice] using h1
      simp only [Chip.load_program]
      rw [writeSlice_getD program _ _ _ hn (by
            rw [hwl, hmem]
            norm_num [PROG_START, MEM_SIZE]
            have := hprog
            norm_num [PROGRAM_SIZE, PROG_END, PROG_START] at this
            omega)]
      exact List.getD_eq_getElem _ _ h2

/-- C9 witness: C9 applied to the default chip and a two-byte program. -/
theorem claim_C9_witness :
    readSlice (Chip.default.load_program [0xAB, 0xCD]).memory 0 fontSet.length = fontSet ∧
    readSlice (Chip.default.load_program [0xAB, 0xCD]).memory PROG_START 2 = [0xAB, 0xCD] ∧
    (Chip.default.load_program [0xAB, 0xCD]).ip = Chip.default.ip := by
  have h := claim_C9_load_program Chip.default [0xAB, 0xCD]
    (by rw [show Chip.default.memory = List.replicate MEM_SIZE 0 from rfl,
        List.length_replicate])
    (by norm_num [PROGRAM_SIZE, PROG_END, PROG_START])
  exact ⟨h.1, h.2.1, h.2.2.2.2.1⟩

/-- Sub-dispatch dichotomy for the ALU group. -/
theorem execOp8_cases (c : Chip) (option x y : Nat) :
    (execOp8 c option x y).cont = true ∨ execOp8 c option x y = ⟨c, [], false⟩ := by
  simp only [execOp8]
  split_ifs <;> first | exact Or.inl rfl | exact Or.inr rfl

/-- Sub-dispatch dichotomy for the key-skip group. -/
theorem execOpE_cases (c : Chip) (lo x : Nat) (kp : Keypad) :
    (execOpE c lo x kp).cont = true ∨ execOpE c lo x kp = ⟨c, [], false⟩ := by
  simp only [execOpE]
  split_ifs <;> first | exact Or.inl rfl | exact Or.inr rfl

/-- Sub-dispatch dichotomy for the `0xFx..` group. -/
theorem execOpF_cases (c : Chip) (lo x : Nat) (kp : Keypad) :
    (execOpF c lo x kp).cont = true ∨ execOpF c lo x kp = ⟨c, [], false⟩ := by
  simp only [execOpF]
  split_ifs <;> first | exact Or.inl rfl | exact Or.inr rfl

/-- Dispatch dichotomy: either the dispatch signals `execute = true`, or it
returns the (already advanced) input state untouched with no port call. -/
theorem execOp_cases (c : Chip) (op lo : Nat) (r : Random) (s : Screen) (kp : Keypad) :
    (execOp c op lo r s kp).cont = true ∨ execOp c op lo r s kp = ⟨c, [], false⟩ := by
  rcases hE : execOp c op lo r s kp with ⟨ch, calls, co⟩
  simp only [execOp] at hE
  by_cases h0 : op = 0x0000
  · rw [if_pos h0] at hE
    injection hE with e1 e2 e3
    subst e1; subst e2; subst e3
    exact Or.inr rfl
  rw [if_neg h0] at hE
  by_cases h1 : op = 0x00E0
  · rw [if_pos h1] at hE
    injection hE with e1 e2 e3
    subst e3
    exact Or.inl rfl
  rw [if_neg h1] at hE
  by_cases h2 : op = 0x00EE
  · rw [if_pos h2] at hE
    injection hE with e1 e2 e3
    subst e3
    exact Or.inl rfl
  rw [if_neg h2] at hE
  by_cases h3 : 0x1000 ≤ op ∧ op ≤ 0x1FFF
  · rw [if_pos h3] at hE
    injection hE with e1 e2 e3
    subst e3
    exact Or.inl rfl
  rw [if_neg h3] at hE
  by_cases h4 : 0x2000 ≤ op ∧ op ≤ 0x2FFF
  · rw [if_pos h4] at hE
    injection hE with e1 e2 e3
    subst e3
    exact Or.inl rfl
  rw [if_neg h4] at hE
  by_cases h5 : 0x3000 ≤ op ∧ op ≤ 0x3FFF
  · rw [if_pos h5] at hE
    injection hE with e1 e2 e3
    subst e3
    exact Or.inl rfl
  rw [if_neg h5] at hE
  by_cases h6 : 0x4000 ≤ op ∧ op ≤ 0x4FFF
  · rw [if_pos h6] at hE
    injection hE with e1 e2 e3
    subst e3
    exact Or.inl rfl
  rw [if_neg h6] at hE
  by_cases h7 : 0x5000 ≤ op ∧ op ≤ 0x5FFF
  · rw [if_pos h7] at hE
    injection hE with e1 e2 e3
    subst e3
    exact Or.inl rfl
  rw [if_neg h7] at hE
  by_cases h8 : 0x6000 ≤ op ∧ op ≤ 0x6FFF
  · rw [if_pos h8] at hE
    injection hE with e1 e2 e3
    subst e3
    exact Or.inl rfl
  rw [if_neg h8] at hE
  by_cases h9 : 0x7000 ≤ op ∧ op ≤ 0x7FFF
  · rw [if_pos h9] at hE
    injection hE with e1 e2 e3
    subst e3
    exact Or.inl rfl
  rw [if_neg h9] at hE
  by_cases h10 : 0x8000 ≤ op ∧ op ≤ 0x8FFF
  · rw [if_pos h10] at hE
    rcases execOp8_cases c (op &&& 0x000F) ((op &&& 0x0F00) >>> 8) ((op &&& 0x00F0) >>> 4) with hc | hc
    · rw [hE] at hc
      exact Or.inl hc
    · rw [hE] at hc
      exact Or.inr hc
  rw [if_neg h10] at hE
  by_cases h11 : 0x9000 ≤ op ∧ op ≤ 0x9FFF
  · rw [if_pos h11] at hE
    injection hE with e1 e2 e3
    subst e3
    exact Or.inl rfl
  rw [if_neg h11] at hE
  by_cases h12 : 0xA000 ≤ op ∧ op ≤ 0xAFFF
  · rw [if_pos h12] at hE
    injection hE with e1 e2 e3
    subst e3
    exact Or.inl rfl
  rw [if_neg h12] at hE
  by_cases h13 : 0xB000 ≤ op ∧ op ≤ 0xBFFF
  · rw [if_pos h13] at hE
    injection hE with e1 e2 e3
    subst e3
    exact Or.inl rfl
  rw [if_neg h13] at hE
  by_cases h14 : 0xC000 ≤ op ∧ op ≤ 0xCFFF
  · rw [if_pos h14] at hE
    injection hE with e1 e2 e3
    subst e3
    exact Or.inl rfl
  rw [if_neg h14] at hE
  by_cases h15 : 0xD000 ≤ op ∧ op ≤ 0xDFFF
  · rw [if_pos h15] at hE
    injection hE with e1 e2 e3
    subst e3
    exact Or.inl rfl
  rw [if_neg h15] at hE
  by_cases h16 : 0xE000 ≤ op ∧ op ≤ 0xEFFF
  · rw [if_pos h16] at hE
    rcases execOpE_cases c lo ((op &&& 0x0F00) >>> 8) kp with hc | hc
    · rw [hE] at hc
      exact Or.inl hc
    · rw [hE] at hc
      exact Or.inr hc
  rw [if_neg h16] at hE
  by_cases h17 : 0xF000 ≤ op ∧ op ≤ 0xFFFF
  · rw [if_pos h17] at hE
    rcases execOpF_cases c lo ((op &&& 0x0F00) >>> 8) kp with hc | hc
    · rw [hE] at hc
      exact Or.inl hc
    · rw [hE] at hc
      exact Or.inr hc
  rw [if_neg h17] at hE
  injection hE with e1 e2 e3
  subst e1; subst e2; subst e3
  exact Or.inr rfl

/-- C10: whenever `tick` returns `false`, the only state change of that tick
is the program counter advancing by 2 — registers, memory, `I`, call stack,
stack pointer and timers are all unchanged (the full machine state equals the
input state with only `ip` advanced) — and no port operation is invoked. -/
theorem claim_C10_false_tick_frame : ∀ (c : Chip) (r : Random) (s : Screen) (kp : Keypad),
    (c.tick r s kp).cont = false →
    (c.tick r s kp).chip = { c with ip := c.ip + 2 } ∧ (c.tick r s kp).calls = [] := by
  intro c r s kp h
  simp only [Chip.tick] at h ⊢
  rcases execOp_cases { c with ip := c.ip + 2 }
      (c.memory.getD c.ip 0 <<< 8 ||| c.memory.getD (c.ip + 1) 0)
      (c.memory.getD (c.ip + 1) 0) r s kp with h1 | h2
  · rw [h1] at h
    cases h
  · rw [h2]
    exact ⟨rfl, rfl⟩

/-- C10 witness: C10 applied to the default chip (opcode 0x0000). -/
theorem claim_C10_witness :
    (Chip.default.tick ⟨1⟩ ⟨fun _ => false⟩ ⟨fun _ => false, none⟩).chip =
      { Chip.default with ip := Chip.default.ip + 2 } ∧
    (Chip.default.tick ⟨1⟩ ⟨fun _ => false⟩ ⟨fun _ => false, none⟩).calls = [] :=
  claim_C10_false_tick_frame Chip.default ⟨1⟩ ⟨fun _ => false⟩ ⟨fun _ => false, none⟩
    (by decide)

/-- C1: every `tick` composes its opcode big-endian from the two bytes at
`memory[ip]` and `memory[ip + 1]` and advances the program counter by 2 before
dispatching the opcode; in particular a program starting with bytes
`[0x00, 0x00]` makes the first `tick` return `false` with the program counter
left at 0x202. -/
theorem claim_C1_fetch_and_advance :
    (∀ (c : Chip) (r : Random) (s : Screen) (kp : Keypad),
      (∀ b ∈ c.memory, b < 256) →
      c.tick r s kp =
        execOp { c with ip := c.ip + 2 }
          (256 * c.memory.getD c.ip 0 + c.memory.getD (c.ip + 1) 0)
          (c.memory.getD (c.ip + 1) 0) r s kp) ∧
    (∀ (r : Random) (s : Screen) (kp : Keypad),
      ((Chip.default.load_program [0x00, 0x00]).tick r s kp).cont = false ∧
      ((Chip.default.load_program [0x00, 0x00]).tick r s kp).chip.ip = 0x202) := by
  have main : ∀ (c : Chip) (r : Random) (s : Screen) (kp : Keypad),
      (∀ b ∈ c.memory, b < 256) →
      c.tick r s kp =
        execOp { c with ip := c.ip + 2 }
          (256 * c.memory.getD c.ip 0 + c.memory.getD (c.ip + 1) 0)
          (c.memory.getD (c.ip + 1) 0) r s kp := by
    intro c r s kp hb
    simp only [Chip.tick]
    rw [shiftLeft8_or_eq _ _ (getD_bound _ _ hb)]
  refine ⟨main, ?_⟩
  intro r s kp
  have hb : ∀ b ∈ (Chip.default.load_program [0x00, 0x00]).memory, b < 256 := by
    apply writeSlice_bound
    · apply writeSlice_bound
      · intro b hb
        have := List.eq_of_mem_replicate (by simpa [Chip.default] using hb)
        omega
      · decide
    · decide
  have happ := main (Chip.default.load_program [0x00, 0x00]) r s kp hb
  have h0 : (Chip.default.load_program [0x00, 0x00]).memory.getD
      (Chip.default.load_program [0x00, 0x00]).ip 0 = 0 := by decide
  have h1 : (Chip.default.load_program [0x00, 0x00]).memory.getD
      ((Chip.default.load_program [0x00, 0x00]).ip + 1) 0 = 0 := by decide
  rw [happ, h0, h1]
  norm_num
  constructor
  · rfl
  · rfl

/-- C1 witness: the fetch/advance decomposition applied at the default chip. -/
theorem claim_C1_witness :
    Chip.default.tick ⟨1⟩ ⟨fun _ => false⟩ ⟨fun _ => false, none⟩ =
      execOp { Chip.default with ip := Chip.default.ip + 2 }
        (256 * Chip.default.memory.getD Chip.default.ip 0 +
          Chip.default.memory.getD (Chip.default.ip + 1) 0)
        (Chip.default.memory.getD (Chip.default.ip + 1) 0)
        ⟨1⟩ ⟨fun _ => false⟩ ⟨fun _ => false, none⟩ :=
  claim_C1_fetch_and_advance.1 Chip.default ⟨1⟩ ⟨fun _ => false⟩ ⟨fun _ => false, none⟩
    (by
      intro b hb
      have := List.eq_of_mem_replicate (by simpa [Chip.default] using hb)
      omega)

/-! ## C4: sprite draw -/

theorem anyDraw_succ (s : Screen) (k n : Nat) :
    anyDraw s k (n + 1) = (s.draw k || anyDraw s (k + 1) n) := by
  unfold anyDraw
  rw [List.range_succ_eq_map, List.any_cons, List.any_map]
  have h2 : ((fun j => s.draw (k + j)) ∘ Nat.succ) = (fun j => s.draw (k + 1 + j)) := by
    funext j
    simp only [Function.comp]
    congr 1
    omega
  rw [h2]
  simp

theorem anyDraw_add (s : Screen) (a : Nat) : ∀ (k b : Nat),
    anyDraw s k (a + b) = (anyDraw s k a || anyDraw s (k + a) b) := by
  induction a with
  | zero => intro k b; simp [anyDraw]
  | succ n ih =>
    intro k b
    rw [show n + 1 + b = (n + b) + 1 by omega, anyDraw_succ, ih (k + 1) b, anyDraw_succ,
      Bool.or_assoc, show k + 1 + n = k + (n + 1) by omega]

/-- Unrolling the inner bit loop of the sprite draw: the trace grows by one
`draw` call per set bit, collision accumulates the oracle answers at the
consecutive call indices, and the call counter advances by the number of set
bits. -/
theorem foldl_drawBitStep (s : Screen) (data vx vy line : Nat) :
    ∀ (ds : List Nat) (b : Bool) (l : List PortCall) (k : Nat),
      ds.foldl (drawBitStep s data vx vy line) (b, l, k) =
        (b || anyDraw s k (bitHits data ds).length,
         l ++ (bitHits data ds).map (fun d =>
           PortCall.draw ((vx + (7 - d)) % 256 % SCREEN_WIDTH)
             ((vy + line) % 256 % SCREEN_HEIGHT)),
         k + (bitHits data ds).length) := by
  intro ds
  induction ds with
  | nil => intro b l k; simp [bitHits, anyDraw]
  | cons d ds ih =>
    intro b l k
    rw [List.foldl_cons]
    by_cases hP : (data >>> d) % 2 = 1
    · rw [show drawBitStep s data vx vy line (b, l, k) d =
          (b || s.draw k,
           l ++ [PortCall.draw ((vx + (7 - d)) % 256 % SCREEN_WIDTH)
             ((vy + line) % 256 % SCREEN_HEIGHT)], k + 1) by
            simp [drawBitStep, hP]]
      rw [ih]
      rw [show bitHits data (d :: ds) = d :: bitHits data ds by
        simp [bitHits, List.filter_cons, hP]]
      simp only [List.length_cons, List.map_cons, Prod.mk.injEq]
      refine ⟨?_, ?_, ?_⟩
      · rw [anyDraw_succ, Bool.or_assoc]
      · simp
      · omega
    · rw [show drawBitStep s data vx vy line (b, l, k) d = (b, l, k) by
        simp [drawBitStep, hP]]
      rw [ih]
      rw [show bitHits data (d :: ds) = bitHits data ds by
        simp [bitHits, List.filter_cons, hP]]

/-- Unrolling the outer row loop of the sprite draw. -/
theorem foldl_drawLineStep (c : Chip) (s : Screen) (vx vy : Nat) :
    ∀ (rs : List Nat) (b : Bool) (l : List PortCall) (k : Nat),
      rs.foldl (drawLineStep c s vx vy) (b, l, k) =
        (b || anyDraw s k (rs.map (fun line =>
             (bitHits (c.memory.getD (c.i + line) 0) (List.range 8)).length)).sum,
         l ++ rs.flatMap (fun line =>
           (bitHits (c.memory.getD (c.i + line) 0) (List.range 8)).map (fun d =>
             PortCall.draw ((vx + (7 - d)) % 256 % SCREEN_WIDTH)
               ((vy + line) % 256 % SCREEN_HEIGHT))),
         k + (rs.map (fun line =>
             (bitHits (c.memory.getD (c.i + line) 0) (List.range 8)).length)).sum) := by
  intro rs
  induction rs with
  | nil => intro b l k; simp [anyDraw]
  | cons rr rs ih =>
    intro b l k
    rw [List.foldl_cons,
      show drawLineStep c s vx vy (b, l, k) rr =
        (List.range 8).foldl (drawBitStep s (c.memory.getD (c.i + rr) 0) vx vy rr)
          (b, l, k) from rfl,
      foldl_drawBitStep, ih]
    simp only [List.map_cons, List.sum_cons, List.flatMap_cons, Prod.mk.injEq]
    refine ⟨?_, ?_, ?_⟩
    · rw [anyDraw_add, Bool.or_assoc]
    · simp
    · omega

/-- C4: `DRW Vx,Vy,n` reads `n` consecutive sprite bytes starting at
`memory[I]`; the draw calls it makes are exactly those at the spec coordinates
`((registers[x] + (7 − bitOffset)) mod 64, (registers[y] + rowIndex) mod 32)`
for each set bit (bit offset 7 being the most significant), in loop order, and
afterwards `registers[FLAG]` is 1 if any of the draw calls reported a
collision and 0 otherwise. -/
theorem claim_C4_drw : ∀ (c : Chip) (s : Screen) (x y n : Nat),
    (c.draw_vx_vy_nibble s x y n).2 =
      (drawCallsSpec c.memory c.i (c.registers.getD x 0) (c.registers.getD y 0) n).map
        (fun p => PortCall.draw p.1 p.2) ∧
    (c.draw_vx_vy_nibble s x y n).1 =
      { c with registers := (c.registers.set FLAG
          (if anyDraw s 0 (c.draw_vx_vy_nibble s x y n).2.length then 1 else 0)) } := by
  intro c s x y n
  simp only [Chip.draw_vx_vy_nibble, foldl_drawLineStep]
  constructor
  · simp only [List.nil_append, drawCallsSpec, List.map_flatMap, bitHits]
    apply List.flatMap_congr
    intro row hrow
    rw [List.map_map]
    apply List.map_congr_left
    intro d hd
    simp only [Function.comp]
    rw [show SCREEN_WIDTH = 64 from rfl, show SCREEN_HEIGHT = 32 from rfl,
      Nat.mod_mod_of_dvd _ (by norm_num : (64 : Nat) ∣ 256),
      Nat.mod_mod_of_dvd _ (by norm_num : (32 : Nat) ∣ 256)]
  · simp only [Bool.false_or, List.nil_append, List.length_flatMap]
    have hl : List.map (List.length ∘ (fun line =>
        (bitHits (c.memory.getD (c.i + line) 0) (List.range 8)).map (fun d =>
          PortCall.draw ((c.registers.getD x 0 + (7 - d)) % 256 % SCREEN_WIDTH)
            ((c.registers.getD y 0 + line) % 256 % SCREEN_HEIGHT)))) (List.range n)
        = List.map (fun line =>
            (bitHits (c.memory.getD (c.i + line) 0) (List.range 8)).length)
            (List.range n) := by
      apply List.map_congr_left
      intro row hrow
      simp [Function.comp]
    rw [hl]

/-! ## C2: opcode classification -/

/-- The amended class count of an opcode is 1 when the dispatch executes it
and 0 when the dispatch signals `false`. -/
theorem amendedMatchCount_char (c : Chip) (op : Nat) (r : Random) (s : Screen)
    (kp : Keypad) (hop : op < 65536) :
    amendedMatchCount op = cond (execOp c op (op % 256) r s kp).cont 1 0 := by
  rcases hE : execOp c op (op % 256) r s kp with ⟨ch, calls, co⟩
  simp only [execOp] at hE
  rw [and_mask15] at hE
  by_cases h0 : op = 0x0000
  · rw [if_pos h0] at hE
    injection hE with e1 e2 e3
    subst e3
    subst h0
    simp [amendedMatchCount, amendedInstructionClasses, List.countP_cons, List.countP_nil]
  rw [if_neg h0] at hE
  by_cases h1 : op = 0x00E0
  · rw [if_pos h1] at hE
    injection hE with e1 e2 e3
    subst e3
    subst h1
    simp [amendedMatchCount, amendedInstructionClasses, List.countP_cons, List.countP_nil]
  rw [if_neg h1] at hE
  by_cases h2 : op = 0x00EE
  · rw [if_pos h2] at hE
    injection hE with e1 e2 e3
    subst e3
    subst h2
    simp [amendedMatchCount, amendedInstructionClasses, List.countP_cons, List.countP_nil]
  rw [if_neg h2] at hE
  by_cases h3 : 0x1000 ≤ op ∧ op ≤ 0x1FFF
  · rw [if_pos h3] at hE
    injection hE with e1 e2 e3
    subst e3
    have hd : op / 4096 = 0x1 := by omega
    simp [amendedMatchCount, amendedInstructionClasses, List.countP_cons, List.countP_nil, hd, h1, h2]
  rw [if_neg h3] at hE
  by_cases h4 : 0x2000 ≤ op ∧ op ≤ 0x2FFF
  · rw [if_pos h4] at hE
    injection hE with e1 e2 e3
    subst e3
    have hd : op / 4096 = 0x2 := by omega
    simp [amendedMatchCount, amendedInstructionClasses, List.countP_cons, List.countP_nil, hd, h1, h2]
  rw [if_neg h4] at hE
  by_cases h5 : 0x3000 ≤ op ∧ op ≤ 0x3FFF
  · rw [if_pos h5] at hE
    injection hE with e1 e2 e3
    subst e3
    have hd : op / 4096 = 0x3 := by omega
    simp [amendedMatchCount, amendedInstructionClasses, List.countP_cons, List.countP_nil, hd, h1, h2]
  rw [if_neg h5] at hE
  by_cases h6 : 0x4000 ≤ op ∧ op ≤ 0x4FFF
  · rw [if_pos h6] at hE
    injection hE with e1 e2 e3
    subst e3
    have hd : op / 4096 = 0x4 := by omega
    simp [amendedMatchCount, amendedInstructionClasses, List.countP_cons, List.countP_nil, hd, h1, h2]
  rw [if_neg h6] at hE
  by_cases h7 : 0x5000 ≤ op ∧ op ≤ 0x5FFF
  · rw [if_pos h7] at hE
    injection hE with e1 e2 e3
    subst e3
    have hd : op / 4096 = 0x5 := by omega
    simp [amendedMatchCount, amendedInstructionClasses, List.countP_cons, List.countP_nil, hd, h1, h2]
  rw [if_neg h7] at hE
  by_cases h8 : 0x6000 ≤ op ∧ op ≤ 0x6FFF
  · rw [if_pos h8] at hE
    injection hE with e1 e2 e3
    subst e3
    have hd : op / 4096 = 0x6 := by omega
    simp [amendedMatchCount, amendedInstructionClasses, List.countP_cons, List.countP_nil, hd, h1, h2]
  rw [if_neg h8] at hE
  by_cases h9 : 0x7000 ≤ op ∧ op ≤ 0x7FFF
  · rw [if_pos h9] at hE
    injection hE with e1 e2 e3
    subst e3
    have hd : op / 4096 = 0x7 := by omega
    simp [amendedMatchCount, amendedInstructionClasses, List.countP_cons, List.countP_nil, hd, h1, h2]
  rw [if_neg h9] at hE
  by_cases h10 : 0x8000 ≤ op ∧ op ≤ 0x8FFF
  · rw [if_pos h10] at hE
    have hd : op / 4096 = 0x8 := by omega
    simp only [execOp8] at hE
    by_cases m0 : op % 16 = 0x0
    · rw [if_pos m0] at hE
      injection hE with e1 e2 e3
      subst e3
      simp [amendedMatchCount, amendedInstructionClasses, List.countP_cons, List.countP_nil, hd, m0, h1, h2]
    rw [if_neg m0] at hE
    by_cases m1 : op % 16 = 0x1
    · rw [if_pos m1] at hE
      injection hE with e1 e2 e3
      subst e3
      simp [amendedMatchCount, amendedInstructionClasses, List.countP_cons, List.countP_nil, hd, m1, h1, h2]
    rw [if_neg m1] at hE
    by_cases m2 : op % 16 = 0x2
    · rw [if_pos m2] at hE
      injection hE with e1 e2 e3
      subst e3
      simp [amendedMatchCount, amendedInstructionClasses, List.countP_cons, List.countP_nil, hd, m2, h1, h2]
    rw [if_neg m2] at hE
    by_cases m3 : op % 16 = 0x3
    · rw [if_pos m3] at hE
      injection hE with e1 e2 e3
      subst e3
      simp [amendedMatchCount, amendedInstructionClasses, List.countP_cons, List.countP_nil, hd, m3, h1, h2]
    rw [if_neg m3] at hE
    by_cases m4 : op % 16 = 0x4
    · rw [if_pos m4] at hE
      injection hE with e1 e2 e3
      subst e3
      simp [amendedMatchCount, amendedInstructionClasses, List.countP_cons, List.countP_nil, hd, m4, h1, h2]
    rw [if_neg m4] at hE
    by_cases m5 : op % 16 = 0x5
    · rw [if_pos m5] at hE
      injection hE with e1 e2 e3
      subst e3
      simp [amendedMatchCount, amendedInstructionClasses, List.countP_cons, List.countP_nil, hd, m5, h1, h2]
    rw [if_neg m5] at hE
    by_cases m6 : op % 16 = 0x6
    · rw [if_pos m6] at hE
      injection hE with e1 e2 e3
      subst e3
      simp [amendedMatchCount, amendedInstructionClasses, List.countP_cons, List.countP_nil, hd, m6, h1, h2]
    rw [if_neg m6] at hE
    by_cases m7 : op % 16 = 0x7
    · rw [if_pos m7] at hE
      injection hE with e1 e2 e3
      subst e3
      simp [amendedMatchCount, amendedInstructionClasses, List.countP_cons, List.countP_nil, hd, m7, h1, h2]
    rw [if_neg m7] at hE
    by_cases m8 : op % 16 = 0xE
    · rw [if_pos m8] at hE
      injection hE with e1 e2 e3
      subst e3
      simp [amendedMatchCount, amendedInstructionClasses, List.countP_cons, List.countP_nil, hd, m8, h1, h2]
    rw [if_neg m8] at hE
    injection hE with e1 e2 e3
    subst e3
    simp [amendedMatchCount, amendedInstructionClasses, List.countP_cons, List.countP_nil, hd, h1, h2, m0, m1, m2, m3, m4, m5, m6, m7, m8]
  rw [if_neg h10] at hE
  by_cases h11 : 0x9000 ≤ op ∧ op ≤ 0x9FFF
  · rw [if_pos h11] at hE
    injection hE with e1 e2 e3
    subst e3
    have hd : op / 4096 = 0x9 := by omega
    simp [amendedMatchCount, amendedInstructionClasses, List.countP_cons, List.countP_nil, hd, h1, h2]
  rw [if_neg h11] at hE
  by_cases h12 : 0xA000 ≤ op ∧ op ≤ 0xAFFF
  · rw [if_pos h12] at hE
    injection hE with e1 e2 e3
    subst e3
    have hd : op / 4096 = 0xA := by omega
    simp [amendedMatchCount, amendedInstructionClasses, List.countP_cons, List.countP_nil, hd, h1, h2]
  rw [if_neg h12] at hE
  by_cases h13 : 0xB000 ≤ op ∧ op ≤ 0xBFFF
  · rw [if_pos h13] at hE
    injection hE with e1 e2 e3
    subst e3
    have hd : op / 4096 = 0xB := by omega
    simp [amendedMatchCount, amendedInstructionClasses, List.countP_cons, List.countP_nil, hd, h1, h2]
  rw [if_neg h13] at hE
  by_cases h14 : 0xC000 ≤ op ∧ op ≤ 0xCFFF
  · rw [if_pos h14] at hE
    injection hE with e1 e2 e3
    subst e3
    have hd : op / 4096 = 0xC := by omega
    simp [amendedMatchCount, amendedInstructionClasses, List.countP_cons, List.countP_nil, hd, h1, h2]
  rw [if_neg h14] at hE
  by_cases h15 : 0xD000 ≤ op ∧ op ≤ 0xDFFF
  · rw [if_pos h15] at hE
    injection hE with e1 e2 e3
    subst e3
    have hd : op / 4096 = 0xD := by omega
    simp [amendedMatchCount, amendedInstructionClasses, List.countP_cons, List.countP_nil, hd, h1, h2]
  rw [if_neg h15] at hE
  by_cases h16 : 0xE000 ≤ op ∧ op ≤ 0xEFFF
  · rw [if_pos h16] at hE
    have hd : op / 4096 = 0xE := by omega
    simp only [execOpE] at hE
    by_cases q1 : op % 256 = 0x9E
    · rw [if_pos q1] at hE
      injection hE with e1 e2 e3
      subst e3
      simp [amendedMatchCount, amendedInstructionClasses, List.countP_cons, List.countP_nil, hd, q1, h1, h2]
    rw [if_neg q1] at hE
    by_cases q2 : op % 256 = 0xA1
    · rw [if_pos q2] at hE
      injection hE with e1 e2 e3
      subst e3
      simp [amendedMatchCount, amendedInstructionClasses, List.countP_cons, List.countP_nil, hd, q2, h1, h2]
    rw [if_neg q2] at hE
    injection hE with e1 e2 e3
    subst e3
    simp [amendedMatchCount, amendedInstructionClasses, List.countP_cons, List.countP_nil, hd, h1, h2, q1, q2]
  rw [if_neg h16] at hE
  by_cases h17 : 0xF000 ≤ op ∧ op ≤ 0xFFFF
  · rw [if_pos h17] at hE
    have hd : op / 4096 = 0xF := by omega
    simp only [execOpF] at hE
    by_cases f1 : op % 256 = 0x07
    · rw [if_pos f1] at hE
      injection hE with e1 e2 e3
      subst e3
      simp [amendedMatchCount, amendedInstructionClasses, List.countP_cons, List.countP_nil, hd, f1, h1, h2]
    rw [if_neg f1] at hE
    by_cases f2 : op % 256 = 0x0A
    · rw [if_pos f2] at hE
      injection hE with e1 e2 e3
      subst e3
      simp [amendedMatchCount, amendedInstructionClasses, List.countP_cons, List.countP_nil, hd, f2, h1, h2]
    rw [if_neg f2] at hE
    by_cases f3 : op % 256 = 0x15
    · rw [if_pos f3] at hE
      injection hE with e1 e2 e3
      subst e3
      simp [amendedMatchCount, amendedInstructionClasses, List.countP_cons, List.countP_nil, hd, f3, h1, h2]
    rw [if_neg f3] at hE
    by_cases f4 : op % 256 = 0x18
    · rw [if_pos f4] at hE
      injection hE with e1 e2 e3
      subst e3
      simp [amendedMatchCount, amendedInstructionClasses, List.countP_cons, List.countP_nil, hd, f4, h1, h2]
    rw [if_neg f4] at hE
    by_cases f5 : op % 256 = 0x1E
    · rw [if_pos f5] at hE
      injection hE with e1 e2 e3
      subst e3
      simp [amendedMatchCount, amendedInstructionClasses, List.countP_cons, List.countP_nil, hd, f5, h1, h2]
    rw [if_neg f5] at hE
    by_cases f6 : op % 256 = 0x29
    · rw [if_pos f6] at hE
      injection hE with e1 e2 e3
      subst e3
      simp [amendedMatchCount, amendedInstructionClasses, List.countP_cons, List.countP_nil, hd, f6, h1, h2]
    rw [if_neg f6] at hE
    by_cases f7 : op % 256 = 0x33
    · rw [if_pos f7] at hE
      injection hE with e1 e2 e3
      subst e3
      simp [amendedMatchCount, amendedInstructionClasses, List.countP_cons, List.countP_nil, hd, f7, h1, h2]
    rw [if_neg f7] at hE
    by_cases f8 : op % 256 = 0x55
    · rw [if_pos f8] at hE
      injection hE with e1 e2 e3
      subst e3
      simp [amendedMatchCount, amendedInstructionClasses, List.countP_cons, List.countP_nil, hd, f8, h1, h2]
    rw [if_neg f8] at hE
    by_cases f9 : op % 256 = 0x65
    · rw [if_pos f9] at hE
      injection hE with e1 e2 e3
      subst e3
      simp [amendedMatchCount, amendedInstructionClasses, List.countP_cons, List.countP_nil, hd, f9, h1, h2]
    rw [if_neg f9] at hE
    injection hE with e1 e2 e3
    subst e3
    simp [amendedMatchCount, amendedInstructionClasses, List.countP_cons, List.countP_nil, hd, h1, h2, f1, f2, f3, f4, f5, f6, f7, f8, f9]
  rw [if_neg h17] at hE
  injection hE with e1 e2 e3
  subst e3
  have hd : op / 4096 = 0 := by omega
  simp [amendedMatchCount, amendedInstructionClasses, List.countP_cons, List.countP_nil, hd, h1, h2]

/-- C2 counterexample: opcode 0x5001 matches none of the classes of the
literal spec table (the `0x5xy0` row demands a zero low nibble), yet `tick`
executes it and returns `true`. -/
theorem claim_C2_counterexample :
    (({ Chip.default with
          memory := ((List.replicate 4096 0).set 0x200 0x50).set 0x201 0x01 } : Chip).tick
        ⟨1⟩ ⟨fun _ => false⟩ ⟨fun _ => false, none⟩).cont = true ∧
    specMatchCount 0x5001 = 0 := by
  constructor
  · decide
  · decide

/-- C2 (amended: with the `0x5xy0` and `0x9xy0` rows of the table keyed on
the high nibble alone, i.e. matching `0x5xyn`/`0x9xyn` for every low nibble):
every 16-bit opcode fed to `tick` matches at most one amended class, it
matches exactly one iff `tick` executes it and returns `true`, and otherwise
`tick` returns `false`. -/
theorem claim_C2_amended : ∀ (c : Chip) (r : Random) (s : Screen) (kp : Keypad),
    (∀ b ∈ c.memory, b < 256) →
    ((c.tick r s kp).cont = true ↔ amendedMatchCount (opcodeAt c) = 1) ∧
    amendedMatchCount (opcodeAt c) ≤ 1 := by
  intro c r s kp hb
  have hhi := getD_bound c.memory c.ip hb
  have hlo := getD_bound c.memory (c.ip + 1) hb
  have hop : opcodeAt c = 256 * c.memory.getD c.ip 0 + c.memory.getD (c.ip + 1) 0 := by
    unfold opcodeAt
    exact shiftLeft8_or_eq _ _ hlo
  have hoplt : opcodeAt c < 65536 := by rw [hop]; omega
  have hlow : opcodeAt c % 256 = c.memory.getD (c.ip + 1) 0 := by rw [hop]; omega
  have hchar := amendedMatchCount_char { c with ip := c.ip + 2 } (opcodeAt c) r s kp hoplt
  rw [hlow] at hchar
  have htick : c.tick r s kp = execOp { c with ip := c.ip + 2 } (opcodeAt c)
      (c.memory.getD (c.ip + 1) 0) r s kp := rfl
  rw [htick]
  constructor
  · constructor
    · intro hc
      rw [hchar, hc]
      rfl
    · intro hcount
      rcases hcont : (execOp { c with ip := c.ip + 2 } (opcodeAt c)
          (c.memory.getD (c.ip + 1) 0) r s kp).cont with _ | _
      · rw [hchar, hcont] at hcount
        cases hcount
      · rfl
  · rw [hchar]
    rcases (execOp { c with ip := c.ip + 2 } (opcodeAt c)
        (c.memory.getD (c.ip + 1) 0) r s kp).cont with _ | _ <;> simp

/-- C2 witness: the amended classification applied at a chip about to execute
opcode 0x5001 (which the amended table places in exactly one class). -/
theorem claim_C2_witness :
    ((({ Chip.default with
          memory := ((List.replicate 4096 0).set 0x200 0x50).set 0x201 0x01 } : Chip).tick
        ⟨1⟩ ⟨fun _ => false⟩ ⟨fun _ => false, none⟩).cont = true ↔
      amendedMatchCount (opcodeAt { Chip.default with
          memory := ((List.replicate 4096 0).set 0x200 0x50).set 0x201 0x01 }) = 1) ∧
    amendedMatchCount (opcodeAt { Chip.default with
        memory := ((List.replicate 4096 0).set 0x200 0x50).set 0x201 0x01 }) ≤ 1 :=
  claim_C2_amended
    { Chip.default with memory := ((List.replicate 4096 0).set 0x200 0x50).set 0x201 0x01 }
    ⟨1⟩ ⟨fun _ => false⟩ ⟨fun _ => false, none⟩
    (by
      intro b hb
      rcases List.mem_or_eq_of_mem_set hb with hb1 | hb2
      · rcases List.mem_or_eq_of_mem_set hb1 with hb3 | hb4
        · rw [List.eq_of_mem_replicate hb3]
          norm_num
        · omega
      · omega)

end Chip8
